import Mathlib

/-!
Shallow embedding of the prodio compiler core: the register allocator
(src/reg_alloc.rs) and the recursive-descent parser (src/parser.rs),
together with theorems about their behaviour.
-/

set_option autoImplicit false
set_option maxHeartbeats 1000000

/-! ## Register allocator (src/reg_alloc.rs) -/

/-- Opcodes of the intermediate representation as distinguished by
`reg_alloc`. The file `gen_ir.rs` is not among the sources; the
constructor set here is exactly the one matched in `reg_alloc.rs`,
with `Other` standing for every opcode of the wildcard arm.
Modelled from the spec: all other instruction kinds pass through with
operands unchanged. -/
inductive IROp where
  | Imm | BpOffset | Cond | Return
  | Add | Sub | Mul | Div | Store | Load
  | Kill
  | Other
deriving DecidableEq, Repr

/-- An IR instruction: opcode with optional lhs and rhs operands
(struct `IR` of the repository, fields `op`, `lhs`, `rhs`). -/
structure IR where
  op : IROp
  lhs : Option Nat
  rhs : Option Nat
deriving DecidableEq, Repr

/-- The mutable pass-local state of `reg_alloc`: the array
`is_reg_used : [bool; REGISTER_COUNT]` and the `HashMap<usize, usize>`
named `reg_map`, the latter modelled as an association list. -/
structure AllocState where
  is_reg_used : List Bool
  reg_map : List (Nat × Nat)
deriving DecidableEq, Repr

/-- Lookup in the association list modelling `HashMap::get`. -/
def mapLookup : List (Nat × Nat) → Nat → Option Nat
  | [], _ => none
  | (k, v) :: rest, key => if k = key then some v else mapLookup rest key

/-- Index of the first `false` entry, modelling the scan
`for i in 0..REGISTER_COUNT { if is_reg_used[i] { continue } ... }`. -/
def firstFree : List Bool → Option Nat
  | [] => none
  | b :: rest => if b then (firstFree rest).map Nat.succ else some 0

/-- Fatal outcomes of the allocator. `noAvailableRegister` models the
`panic!("No availabale register: {}", ir_reg)` reached after the
diagnostic `println!` dump of `reg_map`; the dump is carried as the
payload. `unwrapNone` models `ir_reg.unwrap()` on `None`. -/
inductive RegAllocFatal where
  | noAvailableRegister (dump : List (Nat × Nat)) (vid : Nat)
  | unwrapNone
deriving DecidableEq, Repr

/-- Function `IRGenerator::alloc`: resolve a virtual register operand to a real
register index, binding it to the first free slot when unseen. -/
def alloc (ir_reg : Option Nat) (s : AllocState) :
    Except RegAllocFatal (Nat × AllocState) :=
  match ir_reg with
  | none => .error .unwrapNone
  | some v =>
    match mapLookup s.reg_map v with
    | some r => .ok (r, s)
    | none =>
      match firstFree s.is_reg_used with
      | some i => .ok (i, ⟨s.is_reg_used.set i true, (v, i) :: s.reg_map⟩)
      | none => .error (.noAvailableRegister s.reg_map v)

/-- One iteration of the `for ir in &mut self.ir_vec` loop of
`reg_alloc`, rewriting a single instruction. -/
def reg_alloc_step (s : AllocState) (i : IR) :
    Except RegAllocFatal (IR × AllocState) :=
  match i.op with
  | .Imm | .BpOffset | .Cond | .Return =>
    match alloc i.lhs s with
    | .error e => .error e
    | .ok (r, s1) => .ok ({ i with lhs := some r }, s1)
  | .Add | .Sub | .Mul | .Div | .Store | .Load =>
    match alloc i.lhs s with
    | .error e => .error e
    | .ok (r1, s1) =>
      match alloc i.rhs s1 with
      | .error e => .error e
      | .ok (r2, s2) => .ok ({ i with lhs := some r1, rhs := some r2 }, s2)
  | .Kill =>
    match alloc i.lhs s with
    | .error e => .error e
    | .ok (r, s1) =>
      .ok ({ i with lhs := some r },
           { s1 with is_reg_used := s1.is_reg_used.set r false })
  | .Other => .ok (i, s)

/-- The whole rewriting loop of `reg_alloc`, threading the state over
the instruction list. -/
def reg_alloc_go (s : AllocState) : List IR →
    Except RegAllocFatal (List IR × AllocState)
  | [] => .ok ([], s)
  | i :: rest =>
    match reg_alloc_step s i with
    | .error e => .error e
    | .ok (i1, s1) =>
      match reg_alloc_go s1 rest with
      | .error e => .error e
      | .ok (rest1, s2) => .ok (i1 :: rest1, s2)

/-- The initial state of a pass: all `REGISTER_COUNT` slots free and an
empty map. -/
def initState (RC : Nat) : AllocState := ⟨List.replicate RC false, []⟩

/-- Function `IRGenerator::reg_alloc`, parameterised by the crate constant
`REGISTER_COUNT`: rewrite every instruction of the vector. -/
def reg_alloc (RC : Nat) (irs : List IR) : Except RegAllocFatal (List IR) :=
  match reg_alloc_go (initState RC) irs with
  | .error e => .error e
  | .ok (irs1, _) => .ok irs1

/-- Virtual register ids freed by the `Kill` instructions of a list, in
order. -/
def killedVids (l : List IR) : List Nat :=
  l.filterMap (fun i => if i.op = .Kill then i.lhs else none)

/-- Invariant of the allocator state relative to the set `K` of virtual
ids already freed by a `Kill`: bindings stay in range, a binding of a
live (un-killed) id points at an in-use slot, two live ids never share
a slot, and every killed id is still bound (the sticky map is never
pruned). -/
def AllocInv (K : Nat → Prop) (s : AllocState) : Prop :=
  (∀ v r, mapLookup s.reg_map v = some r → r < s.is_reg_used.length) ∧
  (∀ v r, ¬ K v → mapLookup s.reg_map v = some r →
      s.is_reg_used.getD r false = true) ∧
  (∀ v1 v2 r, ¬ K v1 → ¬ K v2 → mapLookup s.reg_map v1 = some r →
      mapLookup s.reg_map v2 = some r → v1 = v2) ∧
  (∀ v, K v → ∃ r, mapLookup s.reg_map v = some r)

/-- Concrete three-instruction IR exercising slot reuse: virtual 0 is
allocated and killed, then virtual 1 is introduced. -/
def reuseIR : List IR :=
  [IR.mk .Imm (some 0) (some 7), IR.mk .Kill (some 0) none,
   IR.mk .Imm (some 1) (some 8)]

/-- Concrete exhausted allocator state: the single physical slot is in
use and the sticky map is empty. -/
def exhaustState : AllocState := AllocState.mk [true] []


/-! ## Parser (src/parser.rs) -/

/-- Modelled from the spec: `util.rs` is not among the sources. A
location is a half-open span over source-text offsets; the tuple
struct `Loc(usize, usize)` of the repository, with field `stop`
standing for its second component. -/
structure Loc where
  start : Nat
  stop : Nat
deriving DecidableEq, Repr

/-- Modelled from the spec: two locations merge to the span covering
both, the `min` of the starts and the `max` of the ends (behaviour
confirmed by the location values of the repository's parser tests). -/
def Loc.merge (l1 l2 : Loc) : Loc :=
  Loc.mk (min l1.start l2.start) (max l1.stop l2.stop)

/-- Modelled from the spec: the value of `std::usize::MAX` used in the
compound-statement sentinel `Loc(std::usize::MAX, 0)`, for the 64-bit
targets the repository builds on. -/
def USIZE_MAX : Nat := 2 ^ 64 - 1

/-- Modelled from the spec: `lexer.rs` is not among the sources. The
constructor set is the closed set of token kinds the spec lists, which
is exactly the set `parser.rs` matches on. -/
inductive TokenKind where
  | Number (n : Nat)
  | Identifier (name : String)
  | Int
  | If
  | Return
  | LBrace
  | RBrace
  | LParen
  | RParen
  | Semicolon
  | Assignment
  | Plus
  | Minus
  | Asterisk
  | Slash
deriving DecidableEq, Repr

/-- Modelled from the spec: a token is a kind (field `value`) paired
with a location, as consumed by the parser. -/
structure Token where
  value : TokenKind
  loc : Loc
deriving DecidableEq, Repr

/-- Modelled from the spec: the generic annotated-value wrapper of
`util.rs` pairing a value with its location (the repository's
`Annotation<T>` with fields `value` and `loc`). -/
structure Annotated (α : Type) where
  value : α
  loc : Loc
deriving DecidableEq, Repr

/-- Data type of unary operator (`UniOpKind` of `parser.rs`). -/
inductive UniOpKind where
  | Plus
  | Minus
deriving DecidableEq, Repr

/-- Data type of binary operator (`BinOpKind` of `parser.rs`). -/
inductive BinOpKind where
  | Add
  | Sub
  | Mul
  | Div
deriving DecidableEq, Repr

/-- Data type of AST node (`AstKind` of `parser.rs`); recursive
children are boxed annotated nodes. -/
inductive AstKind where
  | Num (n : Nat)
  | Variable (name : String)
  | Decl (lhs rhs : Annotated AstKind)
  | UniOp (op : UniOpKind) (node : Annotated AstKind)
  | BinOp (op : BinOpKind) (lhs rhs : Annotated AstKind)
  | If (cond : Annotated AstKind) (thenStmt : Annotated AstKind)
      (els : Option (Annotated AstKind))
  | CompStmt (stmts : List (Annotated AstKind))
  | Assignment (lhs rhs : Annotated AstKind)
  | Return (expr : Annotated AstKind)
deriving Repr

/-- Annotated AST node: the repository's `pub type Ast`. -/
abbrev Ast := Annotated AstKind

/-- Constructor helper `Ast::num` of `parser.rs`. -/
def Ast.num (n : Nat) (loc : Loc) : Ast := Annotated.mk (AstKind.Num n) loc

/-- Constructor helper `Ast::uniop` of `parser.rs`. -/
def Ast.uniop (op : UniOpKind) (e : Ast) (loc : Loc) : Ast :=
  Annotated.mk (AstKind.UniOp op e) loc

/-- Constructor helper `Ast::binop` of `parser.rs`. -/
def Ast.binop (op : BinOpKind) (lhs rhs : Ast) (loc : Loc) : Ast :=
  Annotated.mk (AstKind.BinOp op lhs rhs) loc

/-- Constructor helper `Ast::assignment` of `parser.rs`. -/
def Ast.assignment (lhs rhs : Ast) (loc : Loc) : Ast :=
  Annotated.mk (AstKind.Assignment lhs rhs) loc

/-- The closed error taxonomy `ParseError` of `parser.rs`. -/
inductive ParseError where
  | UnexpectedToken (t : Token)
  | NotExpression (t : Token)
  | NotOperator (t : Token)
  | UnclosedOpenParen (t : Token)
  | RedundantExpression (t : Token)
  | NoSemicolon
  | Eof
deriving DecidableEq, Repr

/-- Function `Parser::expect_token`: check that the current token has the
expected kind and advance past it. -/
def expect_token (kind : TokenKind) (ts : List Token) :
    Except ParseError (List Token) :=
  match ts with
  | [] => .error .Eof
  | t :: rest => if t.value = kind then .ok rest else .error (.UnexpectedToken t)

/-- Plumbing for the `?` operator of the Rust parser over the fuelled
embedding: `none` is fuel exhaustion, an error aborts, an `ok` result
feeds the parsed value and the remaining tokens onward. The parser
state (token vector plus cursor `pos`) is embedded as the remaining
suffix of the token list, which `peek` and `next` in `parser.rs` only
ever consume from the front. -/
def pbind {α β : Type} (x : Option (Except ParseError (α × List Token)))
    (f : α → List Token → Option (Except ParseError (β × List Token))) :
    Option (Except ParseError (β × List Token)) :=
  match x with
  | none => none
  | some (.error e) => some (.error e)
  | some (.ok (a, ts)) => f a ts

mutual

/-- Function `Parser::parse_add`, for the rule that an ADD is a MUL
followed by any number of plus-MUL or minus-MUL steps; the
iterative folding loop is `parse_add_loop`. Every parser function
spends one unit of fuel per call; `none` means out of fuel and never
occurs for sufficient fuel. -/
def parse_add (fuel : Nat) (ts : List Token) :
    Option (Except ParseError (Ast × List Token)) :=
  match fuel with
  | 0 => none
  | fuel + 1 =>
    pbind (parse_mul fuel ts) (fun lhs ts1 => parse_add_loop fuel lhs ts1)

/-- The folding loop of `parse_add`: while the next token is a plus
or minus, fold a new right operand into the growing left-associated
node. -/
def parse_add_loop (fuel : Nat) (lhs : Ast) (ts : List Token) :
    Option (Except ParseError (Ast × List Token)) :=
  match fuel with
  | 0 => none
  | fuel + 1 =>
    match ts with
    | ⟨.Plus, _⟩ :: rest =>
      pbind (parse_mul fuel rest) (fun rhs ts1 =>
        parse_add_loop fuel (Ast.binop .Add lhs rhs (lhs.loc.merge rhs.loc)) ts1)
    | ⟨.Minus, _⟩ :: rest =>
      pbind (parse_mul fuel rest) (fun rhs ts1 =>
        parse_add_loop fuel (Ast.binop .Sub lhs rhs (lhs.loc.merge rhs.loc)) ts1)
    | _ => some (.ok (lhs, ts))

/-- Function `Parser::parse_mul`, for the rule that a MUL is a UNARY
followed by any number of times-UNARY or divide-UNARY steps. -/
def parse_mul (fuel : Nat) (ts : List Token) :
    Option (Except ParseError (Ast × List Token)) :=
  match fuel with
  | 0 => none
  | fuel + 1 =>
    pbind (parse_unary fuel ts) (fun lhs ts1 => parse_mul_loop fuel lhs ts1)

/-- The folding loop of `parse_mul`. -/
def parse_mul_loop (fuel : Nat) (lhs : Ast) (ts : List Token) :
    Option (Except ParseError (Ast × List Token)) :=
  match fuel with
  | 0 => none
  | fuel + 1 =>
    match ts with
    | ⟨.Asterisk, _⟩ :: rest =>
      pbind (parse_unary fuel rest) (fun rhs ts1 =>
        parse_mul_loop fuel (Ast.binop .Mul lhs rhs (lhs.loc.merge rhs.loc)) ts1)
    | ⟨.Slash, _⟩ :: rest =>
      pbind (parse_unary fuel rest) (fun rhs ts1 =>
        parse_mul_loop fuel (Ast.binop .Div lhs rhs (lhs.loc.merge rhs.loc)) ts1)
    | _ => some (.ok (lhs, ts))

/-- Function `Parser::parse_unary`: an optional leading sign followed by a
primary; the node's location is the primary's location only (the sign
token's location is bound to `_loc` and discarded in `parser.rs`). -/
def parse_unary (fuel : Nat) (ts : List Token) :
    Option (Except ParseError (Ast × List Token)) :=
  match fuel with
  | 0 => none
  | fuel + 1 =>
    match ts with
    | ⟨.Plus, _⟩ :: rest =>
      pbind (parse_primary fuel rest) (fun node ts1 =>
        some (.ok (Ast.uniop .Plus node node.loc, ts1)))
    | ⟨.Minus, _⟩ :: rest =>
      pbind (parse_primary fuel rest) (fun node ts1 =>
        some (.ok (Ast.uniop .Minus node node.loc, ts1)))
    | _ => parse_primary fuel ts

/-- Function `Parser::parse_primary`: number, identifier, or parenthesized
`ADD`; after the inner expression, a missing next token yields
unclosed-open-paren carrying the opening token, and any token other
than the closing parenthesis yields redundant-expression. -/
def parse_primary (fuel : Nat) (ts : List Token) :
    Option (Except ParseError (Ast × List Token)) :=
  match fuel with
  | 0 => none
  | fuel + 1 =>
    match ts with
    | [] => some (.error .Eof)
    | tok :: rest =>
      match tok.value with
      | .Number n => some (.ok (Annotated.mk (AstKind.Num n) tok.loc, rest))
      | .Identifier v =>
        some (.ok (Annotated.mk (AstKind.Variable v) tok.loc, rest))
      | .LParen =>
        pbind (parse_add fuel rest) (fun node ts1 =>
          match ts1 with
          | ⟨.RParen, _⟩ :: ts2 => some (.ok (node, ts2))
          | t :: _ => some (.error (.RedundantExpression t))
          | [] => some (.error (.UnclosedOpenParen tok)))
      | _ => some (.error (.NotExpression tok))

end

/-- Function `Parser::parse_assign`, for the rule that an ASSIGN is an
ADD optionally followed by the assignment token and a recursive
ASSIGN: right-recursive on the right-hand side. -/
def parse_assign (fuel : Nat) (ts : List Token) :
    Option (Except ParseError (Ast × List Token)) :=
  match fuel with
  | 0 => none
  | fuel + 1 =>
    pbind (parse_add fuel ts) (fun lhs ts1 =>
      match ts1 with
      | ⟨.Assignment, _⟩ :: rest =>
        pbind (parse_assign fuel rest) (fun rhs ts2 =>
          some (.ok (Ast.assignment lhs rhs (lhs.loc.merge rhs.loc), ts2)))
      | _ => some (.ok (lhs, ts1)))

/-- Function `Parser::parse_decl_var`, for the declaration rule:
drops the type token, reads the identifier, expects the assignment
token, parses the initialiser and expects the semicolon. -/
def parse_decl_var (fuel : Nat) (ts : List Token) :
    Option (Except ParseError (Ast × List Token)) :=
  match fuel with
  | 0 => none
  | fuel + 1 =>
    match ts.tail with
    | [] => some (.error .Eof)
    | tok :: rest =>
      match tok.value with
      | .Identifier v =>
        let lhs : Ast := Annotated.mk (AstKind.Variable v) tok.loc
        match expect_token .Assignment rest with
        | .error e => some (.error e)
        | .ok rest2 =>
          pbind (parse_add fuel rest2) (fun rhs rest3 =>
            match expect_token .Semicolon rest3 with
            | .error e => some (.error e)
            | .ok rest4 =>
              some (.ok (Annotated.mk (AstKind.Decl lhs rhs)
                (lhs.loc.merge rhs.loc), rest4)))
      | _ => some (.error (.UnexpectedToken tok))

mutual

/-- Function `Parser::parse_stmt`: dispatch on the leading token kind among
declaration, if-statement, compound statement, return statement and
expression statement. -/
def parse_stmt (fuel : Nat) (ts : List Token) :
    Option (Except ParseError (Ast × List Token)) :=
  match fuel with
  | 0 => none
  | fuel + 1 =>
    match ts with
    | ⟨.Int, _⟩ :: _ => parse_decl_var fuel ts
    | ⟨.If, _⟩ :: rest =>
      match expect_token .LParen rest with
      | .error e => some (.error e)
      | .ok r1 =>
        pbind (parse_assign fuel r1) (fun cond r2 =>
          match expect_token .RParen r2 with
          | .error e => some (.error e)
          | .ok r3 =>
            pbind (parse_stmt fuel r3) (fun thenStmt r4 =>
              some (.ok (Annotated.mk (AstKind.If cond thenStmt none)
                (cond.loc.merge thenStmt.loc), r4))))
    | ⟨.LBrace, _⟩ :: rest =>
      parse_comp_loop fuel (Loc.mk USIZE_MAX 0) [] rest
    | ⟨.Return, _⟩ :: rest =>
      pbind (parse_assign fuel rest) (fun expr r1 =>
        match expect_token .Semicolon r1 with
        | .error e => some (.error e)
        | .ok r2 => some (.ok (Annotated.mk (AstKind.Return expr) expr.loc, r2)))
    | _ =>
      pbind (parse_assign fuel ts) (fun ast r1 =>
        match expect_token .Semicolon r1 with
        | .error e => some (.error e)
        | .ok r2 => some (.ok (ast, r2)))

/-- The compound-statement loop of `parse_stmt`: accumulate inner
statements until the closing brace, merging locations into the
accumulator that starts at the sentinel `Loc(usize::MAX, 0)`. -/
def parse_comp_loop (fuel : Nat) (loc : Loc) (stmts : List Ast)
    (ts : List Token) : Option (Except ParseError (Ast × List Token)) :=
  match fuel with
  | 0 => none
  | fuel + 1 =>
    match ts with
    | ⟨.RBrace, _⟩ :: rest =>
      some (.ok (Annotated.mk (AstKind.CompStmt stmts) loc, rest))
    | _ =>
      pbind (parse_stmt fuel ts) (fun stmt ts1 =>
        parse_comp_loop fuel (loc.merge stmt.loc) (stmts ++ [stmt]) ts1)

end

/-- Function `Parser::parse`: the top-level loop, parsing one statement, then
continuing while a token remains. -/
def parse (fuel : Nat) (ts : List Token) :
    Option (Except ParseError (List Ast × List Token)) :=
  match fuel with
  | 0 => none
  | fuel + 1 =>
    match parse_stmt fuel ts with
    | none => none
    | some (.error e) => some (.error e)
    | some (.ok (ast, ts1)) =>
      match ts1 with
      | [] => some (.ok ([ast], []))
      | _ :: _ =>
        match parse fuel ts1 with
        | none => none
        | some (.error e) => some (.error e)
        | some (.ok (asts, ts2)) => some (.ok (ast :: asts, ts2))

/-- The location a compound statement ends up with: the fold of the
merges of its statements' locations over the sentinel. -/
def compLocFold (stmts : List Ast) : Loc :=
  stmts.foldl (fun l a => l.merge a.loc) (Loc.mk USIZE_MAX 0)

/-- The location discipline the parser actually implements: leaves
keep their token's location; `Decl`, `BinOp`, `If`, `Assignment` merge
their two children's locations; `UniOp` and `Return` take their only
child's location; `CompStmt` folds its children's locations over the
sentinel. Tokens (signs, parentheses, keywords, punctuation) never
contribute. -/
inductive LocOk : Ast → Prop where
  | num (n : Nat) (loc : Loc) : LocOk (Annotated.mk (AstKind.Num n) loc)
  | var (name : String) (loc : Loc) :
      LocOk (Annotated.mk (AstKind.Variable name) loc)
  | decl (lhs rhs : Ast) : LocOk lhs → LocOk rhs →
      LocOk (Annotated.mk (AstKind.Decl lhs rhs) (lhs.loc.merge rhs.loc))
  | uniop (op : UniOpKind) (node : Ast) : LocOk node →
      LocOk (Annotated.mk (AstKind.UniOp op node) node.loc)
  | binop (op : BinOpKind) (lhs rhs : Ast) : LocOk lhs → LocOk rhs →
      LocOk (Annotated.mk (AstKind.BinOp op lhs rhs) (lhs.loc.merge rhs.loc))
  | ifstmt (cond thenStmt : Ast) : LocOk cond → LocOk thenStmt →
      LocOk (Annotated.mk (AstKind.If cond thenStmt none)
        (cond.loc.merge thenStmt.loc))
  | compstmt (stmts : List Ast) : (∀ a ∈ stmts, LocOk a) →
      LocOk (Annotated.mk (AstKind.CompStmt stmts) (compLocFold stmts))
  | assign (lhs rhs : Ast) : LocOk lhs → LocOk rhs →
      LocOk (Annotated.mk (AstKind.Assignment lhs rhs) (lhs.loc.merge rhs.loc))
  | ret (expr : Ast) : LocOk expr →
      LocOk (Annotated.mk (AstKind.Return expr) expr.loc)

/-- A parser outcome is good when a produced node satisfies `LocOk`
and a produced error is neither `NoSemicolon` nor `NotOperator`. -/
def GoodRes (r : Option (Except ParseError (Ast × List Token))) : Prop :=
  (∀ a ts, r = some (.ok (a, ts)) → LocOk a) ∧
  (∀ e, r = some (.error e) → e ≠ .NoSemicolon ∧ ∀ t, e ≠ .NotOperator t)

/-- The same as `GoodRes` for the statement-list result of `parse`. -/
def GoodResL (r : Option (Except ParseError (List Ast × List Token))) : Prop :=
  (∀ asts ts, r = some (.ok (asts, ts)) → ∀ a ∈ asts, LocOk a) ∧
  (∀ e, r = some (.error e) → e ≠ .NoSemicolon ∧ ∀ t, e ≠ .NotOperator t)

/-- Token stream of the source text of the repository's
`test_calculate` regression test, with the lexer's locations. -/
def toksCalc : List Token :=
  [Token.mk .LParen (Loc.mk 0 1), Token.mk (.Number 5) (Loc.mk 1 2),
   Token.mk .Plus (Loc.mk 3 4), Token.mk (.Number 2) (Loc.mk 5 6),
   Token.mk .RParen (Loc.mk 6 7), Token.mk .Asterisk (Loc.mk 8 9),
   Token.mk (.Number 31) (Loc.mk 10 12), Token.mk .Minus (Loc.mk 13 14),
   Token.mk .Minus (Loc.mk 15 16), Token.mk (.Number 10) (Loc.mk 16 18),
   Token.mk .Semicolon (Loc.mk 18 19)]

/-- Token stream of an unterminated parenthesized sum: an opening
parenthesis never closed. -/
def toksUnclosed : List Token :=
  [Token.mk .LParen (Loc.mk 0 1), Token.mk (.Number 1) (Loc.mk 1 2),
   Token.mk .Plus (Loc.mk 3 4), Token.mk (.Number 2) (Loc.mk 5 6)]

/-- Token stream of a chain of two assignments over three
identifiers. -/
def toksAssignChain : List Token :=
  [Token.mk (.Identifier "a") (Loc.mk 0 1), Token.mk .Assignment (Loc.mk 2 3),
   Token.mk (.Identifier "b") (Loc.mk 4 5), Token.mk .Assignment (Loc.mk 6 7),
   Token.mk (.Identifier "c") (Loc.mk 8 9)]

/-! ### Basic lemmas about the allocator state -/

theorem getD_set_eq (l : List Bool) (i : Nat) (b d : Bool) (h : i < l.length) :
    (l.set i b).getD i d = b := by
  induction l generalizing i with
  | nil => simp at h
  | cons a as ih =>
    cases i with
    | zero => simp
    | succ j => simpa using ih j (by simpa using h)

theorem getD_set_ne (l : List Bool) (i j : Nat) (b d : Bool) (h : j ≠ i) :
    (l.set i b).getD j d = l.getD j d := by
  induction l generalizing i j with
  | nil => simp
  | cons a as ih =>
    cases i with
    | zero =>
      cases j with
      | zero => exact absurd rfl h
      | succ k => simp
    | succ i2 =>
      cases j with
      | zero => simp
      | succ k => simpa using ih i2 k (fun hh => h (by rw [hh]))

theorem firstFree_lt_length (l : List Bool) : ∀ i, firstFree l = some i → i < l.length := by
  induction l with
  | nil => intro i h; simp [firstFree] at h
  | cons b rest ih =>
    intro i h
    cases b with
    | false =>
      simp [firstFree] at h
      subst h
      simp
    | true =>
      simp [firstFree] at h
      obtain ⟨j, hj, rfl⟩ := h
      have := ih j hj
      simp only [List.length_cons]
      omega

theorem firstFree_getD (l : List Bool) : ∀ i, firstFree l = some i → l.getD i false = false := by
  induction l with
  | nil => intro i h; simp [firstFree] at h
  | cons b rest ih =>
    intro i h
    cases b with
    | false =>
      simp [firstFree] at h
      subst h
      rfl
    | true =>
      simp [firstFree] at h
      obtain ⟨j, hj, rfl⟩ := h
      simpa using ih j hj

theorem firstFree_eq_none (l : List Bool) : firstFree l = none ↔ ∀ b ∈ l, b = true := by
  induction l with
  | nil => simp [firstFree]
  | cons b rest ih =>
    cases b with
    | false => simp [firstFree]
    | true => simpa [firstFree] using ih

/-! ### Lemmas about alloc: the sticky map only grows -/

theorem alloc_of_mapped (v r : Nat) (s : AllocState) (h : mapLookup s.reg_map v = some r) :
    alloc (some v) s = .ok (r, s) := by
  simp [alloc, h]

theorem alloc_binds (v r : Nat) (s s1 : AllocState) (h : alloc (some v) s = .ok (r, s1)) :
    mapLookup s1.reg_map v = some r := by
  simp only [alloc] at h
  cases hm : mapLookup s.reg_map v with
  | some r0 =>
    simp only [hm] at h
    simp at h
    obtain ⟨rfl, rfl⟩ := h
    exact hm
  | none =>
    simp only [hm] at h
    cases hf : firstFree s.is_reg_used with
    | none => simp only [hf] at h; cases h
    | some i =>
      simp only [hf] at h
      simp at h
      obtain ⟨rfl, rfl⟩ := h
      simp [mapLookup]

theorem alloc_preserves (o : Option Nat) (r : Nat) (s s1 : AllocState)
    (h : alloc o s = .ok (r, s1)) (w x : Nat)
    (hw : mapLookup s.reg_map w = some x) : mapLookup s1.reg_map w = some x := by
  cases o with
  | none => cases h
  | some v =>
    simp only [alloc] at h
    cases hm : mapLookup s.reg_map v with
    | some r0 =>
      simp only [hm] at h
      simp at h
      obtain ⟨rfl, rfl⟩ := h
      exact hw
    | none =>
      simp only [hm] at h
      cases hf : firstFree s.is_reg_used with
      | none => simp only [hf] at h; cases h
      | some i =>
        simp only [hf] at h
        simp at h
        obtain ⟨rfl, rfl⟩ := h
        have hvw : v ≠ w := by
          intro hh
          rw [hh, hw] at hm
          cases hm
        simp [mapLookup, hvw, hw]

theorem step_preserves (s : AllocState) (i i1 : IR) (s1 : AllocState)
    (h : reg_alloc_step s i = .ok (i1, s1)) (w x : Nat)
    (hw : mapLookup s.reg_map w = some x) : mapLookup s1.reg_map w = some x := by
  cases hop : i.op <;> simp only [reg_alloc_step, hop] at h <;>
  first
  | (simp at h
     obtain ⟨rfl, rfl⟩ := h
     exact hw)
  | (cases h1 : alloc i.lhs s with
     | error e => simp only [h1] at h; cases h
     | ok p =>
       obtain ⟨r, s2⟩ := p
       simp only [h1] at h
       simp at h
       obtain ⟨rfl, rfl⟩ := h
       exact alloc_preserves _ _ _ _ h1 w x hw)
  | (cases h1 : alloc i.lhs s with
     | error e => simp only [h1] at h; cases h
     | ok p =>
       obtain ⟨r1, s2⟩ := p
       simp only [h1] at h
       cases h2 : alloc i.rhs s2 with
       | error e => simp only [h2] at h; cases h
       | ok q =>
         obtain ⟨r2, s3⟩ := q
         simp only [h2] at h
         simp at h
         obtain ⟨rfl, rfl⟩ := h
         exact alloc_preserves _ _ _ _ h2 w x (alloc_preserves _ _ _ _ h1 w x hw))

theorem go_preserves (l : List IR) : ∀ (s : AllocState) (out : List IR) (s2 : AllocState),
    reg_alloc_go s l = .ok (out, s2) →
    ∀ w x, mapLookup s.reg_map w = some x → mapLookup s2.reg_map w = some x := by
  induction l with
  | nil =>
    intro s out s2 h w x hw
    simp only [reg_alloc_go] at h
    simp at h
    obtain ⟨rfl, rfl⟩ := h
    exact hw
  | cons i rest ih =>
    intro s out s2 h w x hw
    simp only [reg_alloc_go] at h
    cases h1 : reg_alloc_step s i with
    | error e => simp only [h1] at h; cases h
    | ok p =>
      obtain ⟨i1, s1⟩ := p
      simp only [h1] at h
      cases h2 : reg_alloc_go s1 rest with
      | error e => simp only [h2] at h; cases h
      | ok q =>
        obtain ⟨rest1, s3⟩ := q
        simp only [h2] at h
        simp at h
        obtain ⟨rfl, rfl⟩ := h
        exact ih s1 rest1 _ h2 w x (step_preserves s i i1 s1 h1 w x hw)

/-- C1: sticky-mapping invariant of the register allocator. Once a
resolution of virtual id `v` returns physical index `r`, the binding
`v ↦ r` survives any further instructions of the pass unchanged, and
any later resolution of `v` returns the same `r` without touching the
state. -/
theorem reg_alloc_sticky (v r : Nat) (s s1 s2 : AllocState) (l out : List IR)
    (h1 : alloc (some v) s = .ok (r, s1))
    (h2 : reg_alloc_go s1 l = .ok (out, s2)) :
    mapLookup s2.reg_map v = some r ∧ alloc (some v) s2 = .ok (r, s2) := by
  have hb := alloc_binds v r s s1 h1
  have hp := go_preserves l s1 out s2 h2 v r hb
  exact ⟨hp, alloc_of_mapped v r s2 hp⟩

/-- Witness for C1 at a concrete run: after binding virtual 0 to real 0
and processing a further `Imm` on virtual 1, virtual 0 still resolves
to real 0. -/
theorem reg_alloc_sticky_witness :
    mapLookup (AllocState.mk [true, true] [(1, 1), (0, 0)]).reg_map 0 = some 0 ∧
      alloc (some 0) (AllocState.mk [true, true] [(1, 1), (0, 0)]) =
        .ok (0, AllocState.mk [true, true] [(1, 1), (0, 0)]) :=
  reg_alloc_sticky 0 0 (initState 2) (AllocState.mk [true, false] [(0, 0)])
    (AllocState.mk [true, true] [(1, 1), (0, 0)]) [IR.mk .Imm (some 1) (some 5)]
    [IR.mk .Imm (some 1) (some 5)] rfl rfl

/-! ### Non-aliasing invariant of the pass -/

theorem AllocInv_congr (K1 K2 : Nat → Prop) (s : AllocState)
    (hk : ∀ v, K1 v ↔ K2 v) (h : AllocInv K1 s) : AllocInv K2 s := by
  obtain ⟨h1, h2, h3, h4⟩ := h
  refine ⟨h1, ?_, ?_, ?_⟩
  · intro v r hv hm
    exact h2 v r (fun hh => hv ((hk v).mp hh)) hm
  · intro v1 v2 r hv1 hv2 hm1 hm2
    exact h3 v1 v2 r (fun hh => hv1 ((hk v1).mp hh))
      (fun hh => hv2 ((hk v2).mp hh)) hm1 hm2
  · intro v hv
    exact h4 v ((hk v).mpr hv)

theorem alloc_inv (K : Nat → Prop) (v r : Nat) (s s1 : AllocState)
    (hI : AllocInv K s) (h : alloc (some v) s = .ok (r, s1)) :
    AllocInv K s1 ∧ mapLookup s1.reg_map v = some r ∧
      s1.is_reg_used.length = s.is_reg_used.length := by
  obtain ⟨hb, hu, hj, hd⟩ := hI
  simp only [alloc] at h
  cases hm : mapLookup s.reg_map v with
  | some r0 =>
    simp only [hm] at h
    simp at h
    obtain ⟨rfl, rfl⟩ := h
    exact ⟨⟨hb, hu, hj, hd⟩, hm, rfl⟩
  | none =>
    simp only [hm] at h
    cases hf : firstFree s.is_reg_used with
    | none => simp only [hf] at h; cases h
    | some i =>
      simp only [hf] at h
      simp at h
      obtain ⟨rfl, rfl⟩ := h
      have hilt := firstFree_lt_length s.is_reg_used i hf
      have hifalse := firstFree_getD s.is_reg_used i hf
      refine ⟨⟨?_, ?_, ?_, ?_⟩, ?_, ?_⟩
      · intro w y hw
        simp only [mapLookup] at hw
        by_cases hvw : v = w
        · simp only [if_pos hvw] at hw
          obtain rfl : i = y := Option.some.inj hw
          simpa [List.length_set] using hilt
        · simp only [if_neg hvw] at hw
          simpa [List.length_set] using hb w y hw
      · intro w y hkw hw
        simp only [mapLookup] at hw
        by_cases hvw : v = w
        · simp only [if_pos hvw] at hw
          obtain rfl : i = y := Option.some.inj hw
          simpa using getD_set_eq s.is_reg_used i true false hilt
        · simp only [if_neg hvw] at hw
          by_cases hyi : y = i
          · subst hyi
            exact absurd (hu w y hkw hw) (by rw [hifalse]; simp)
          · have := getD_set_ne s.is_reg_used i y true false hyi
            simp only [AllocState.is_reg_used] at this ⊢
            rw [this]
            exact hu w y hkw hw
      · intro w1 w2 y hk1 hk2 hw1 hw2
        simp only [mapLookup] at hw1 hw2
        by_cases hv1 : v = w1 <;> by_cases hv2 : v = w2
        · rw [← hv1, ← hv2]
        · simp only [if_pos hv1] at hw1
          simp only [if_neg hv2] at hw2
          obtain rfl : i = y := Option.some.inj hw1
          exact absurd (hu w2 i hk2 hw2) (by rw [hifalse]; simp)
        · simp only [if_pos hv2] at hw2
          simp only [if_neg hv1] at hw1
          obtain rfl : i = y := Option.some.inj hw2
          exact absurd (hu w1 i hk1 hw1) (by rw [hifalse]; simp)
        · simp only [if_neg hv1] at hw1
          simp only [if_neg hv2] at hw2
          exact hj w1 w2 y hk1 hk2 hw1 hw2
      · intro w hw
        obtain ⟨y, hy⟩ := hd w hw
        have hvw : v ≠ w := fun hh => by rw [hh, hy] at hm; cases hm
        exact ⟨y, by simp [mapLookup, hvw, hy]⟩
      · simp [mapLookup]
      · simp [List.length_set]

theorem kill_inv (K : Nat → Prop) (v r : Nat) (s : AllocState)
    (hI : AllocInv K s) (hv : ¬ K v) (hm : mapLookup s.reg_map v = some r) :
    AllocInv (fun w => w = v ∨ K w)
      (AllocState.mk (s.is_reg_used.set r false) s.reg_map) := by
  obtain ⟨hb, hu, hj, hd⟩ := hI
  refine ⟨?_, ?_, ?_, ?_⟩
  · intro w y hw
    simpa [List.length_set] using hb w y hw
  · intro w y hkw hw
    have hwv : w ≠ v := fun hh => hkw (Or.inl hh)
    have hkw2 : ¬ K w := fun hh => hkw (Or.inr hh)
    have hyr : y ≠ r := by
      intro hh
      subst hh
      exact hwv (hj w v y hkw2 hv hw hm)
    have := getD_set_ne s.is_reg_used r y false false hyr
    simp only [AllocState.is_reg_used] at this ⊢
    rw [this]
    exact hu w y hkw2 hw
  · intro w1 w2 y hk1 hk2 hw1 hw2
    exact hj w1 w2 y (fun hh => hk1 (Or.inr hh)) (fun hh => hk2 (Or.inr hh))
      hw1 hw2
  · intro w hw
    cases hw with
    | inl hh => exact ⟨r, hh ▸ hm⟩
    | inr hh => exact hd w hh

theorem alloc_inv_opt (K : Nat → Prop) (o : Option Nat) (r : Nat)
    (s s1 : AllocState) (hI : AllocInv K s) (h : alloc o s = .ok (r, s1)) :
    AllocInv K s1 := by
  cases o with
  | none => cases h
  | some v => exact (alloc_inv K v r s s1 hI h).1

theorem step_inv_nonkill (K : Nat → Prop) (s : AllocState) (i i1 : IR)
    (s1 : AllocState) (hop : i.op ≠ .Kill) (hI : AllocInv K s)
    (h : reg_alloc_step s i = .ok (i1, s1)) : AllocInv K s1 := by
  cases hopc : i.op <;> simp only [reg_alloc_step, hopc] at h <;>
  first
  | exact absurd hopc hop
  | (simp at h
     obtain ⟨rfl, rfl⟩ := h
     exact ⟨hI.1, hI.2.1, hI.2.2.1, hI.2.2.2⟩)
  | (cases h1 : alloc i.lhs s with
     | error e => simp only [h1] at h; cases h
     | ok p =>
       obtain ⟨r, s2⟩ := p
       simp only [h1] at h
       simp at h
       obtain ⟨rfl, rfl⟩ := h
       exact alloc_inv_opt K i.lhs r s _ hI h1)
  | (cases h1 : alloc i.lhs s with
     | error e => simp only [h1] at h; cases h
     | ok p =>
       obtain ⟨r1, s2⟩ := p
       simp only [h1] at h
       cases h2 : alloc i.rhs s2 with
       | error e => simp only [h2] at h; cases h
       | ok q =>
         obtain ⟨r2, s3⟩ := q
         simp only [h2] at h
         simp at h
         obtain ⟨rfl, rfl⟩ := h
         exact alloc_inv_opt K i.rhs r2 s2 _
           (alloc_inv_opt K i.lhs r1 s s2 hI h1) h2)

theorem step_inv_kill (K : Nat → Prop) (s : AllocState) (i i1 : IR)
    (s1 : AllocState) (v : Nat) (hop : i.op = .Kill) (hl : i.lhs = some v)
    (hv : ¬ K v) (hI : AllocInv K s)
    (h : reg_alloc_step s i = .ok (i1, s1)) :
    AllocInv (fun w => w = v ∨ K w) s1 := by
  simp only [reg_alloc_step, hop, hl] at h
  cases h1 : alloc (some v) s with
  | error e => simp only [h1] at h; cases h
  | ok p =>
    obtain ⟨r, s2⟩ := p
    simp only [h1] at h
    simp at h
    obtain ⟨rfl, rfl⟩ := h
    obtain ⟨hI2, hm2, hlen⟩ := alloc_inv K v r s s2 hI h1
    exact kill_inv K v r s2 hI2 hv hm2

theorem killedVids_cons_kill (i : IR) (rest : List IR) (v : Nat)
    (hop : i.op = .Kill) (hl : i.lhs = some v) :
    killedVids (i :: rest) = v :: killedVids rest := by
  simp [killedVids, hop, hl]

theorem killedVids_cons_nonkill (i : IR) (rest : List IR)
    (hop : i.op ≠ .Kill) : killedVids (i :: rest) = killedVids rest := by
  simp [killedVids, hop]

theorem go_inv (l : List IR) : ∀ (K : Nat → Prop) (s : AllocState)
    (out : List IR) (s2 : AllocState), AllocInv K s →
    reg_alloc_go s l = .ok (out, s2) →
    (∀ w, w ∈ killedVids l → ¬ K w) → (killedVids l).Nodup →
    AllocInv (fun w => w ∈ killedVids l ∨ K w) s2 := by
  induction l with
  | nil =>
    intro K s out s2 hI h hdisj hnd
    simp only [reg_alloc_go] at h
    simp at h
    obtain ⟨rfl, rfl⟩ := h
    exact AllocInv_congr K _ _ (by simp [killedVids]) hI
  | cons i rest ih =>
    intro K s out s2 hI h hdisj hnd
    simp only [reg_alloc_go] at h
    cases h1 : reg_alloc_step s i with
    | error e => simp only [h1] at h; cases h
    | ok p =>
      obtain ⟨i1, s1⟩ := p
      simp only [h1] at h
      cases h2 : reg_alloc_go s1 rest with
      | error e => simp only [h2] at h; cases h
      | ok q =>
        obtain ⟨rest1, s3⟩ := q
        simp only [h2] at h
        simp at h
        obtain ⟨rfl, rfl⟩ := h
        by_cases hop : i.op = .Kill
        · cases hl : i.lhs with
          | none => simp [reg_alloc_step, hop, hl, alloc] at h1
          | some v =>
            have hkl := killedVids_cons_kill i rest v hop hl
            have hv : ¬ K v := hdisj v (by rw [hkl]; exact List.mem_cons_self v _)
            have hI1 := step_inv_kill K s i i1 s1 v hop hl hv hI h1
            have hvnot : v ∉ killedVids rest := by
              rw [hkl] at hnd
              exact (List.nodup_cons.mp hnd).1
            have hdisj2 : ∀ w, w ∈ killedVids rest → ¬ (w = v ∨ K w) := by
              intro w hw
              rintro (rfl | hkw)
              · exact hvnot hw
              · exact hdisj w (by rw [hkl]; exact List.mem_cons_of_mem v hw) hkw
            have hnd2 : (killedVids rest).Nodup := by
              rw [hkl] at hnd
              exact (List.nodup_cons.mp hnd).2
            have hres := ih (fun w => w = v ∨ K w) s1 rest1 _ hI1 h2 hdisj2 hnd2
            refine AllocInv_congr _ _ _ ?_ hres
            intro w
            rw [hkl]
            simp only [List.mem_cons]
            tauto
        · have hkl := killedVids_cons_nonkill i rest hop
          have hI1 := step_inv_nonkill K s i i1 s1 hop hI h1
          have hres := ih K s1 rest1 _ hI1 h2
            (fun w hw => hdisj w (by rw [hkl]; exact hw))
            (by rw [hkl] at hnd; exact hnd)
          refine AllocInv_congr _ _ _ ?_ hres
          intro w
          rw [hkl]

theorem initState_inv (RC : Nat) : AllocInv (fun _ => False) (initState RC) := by
  refine ⟨?_, ?_, ?_, ?_⟩
  · intro v r hm
    simp [initState, mapLookup] at hm
  · intro v r hv hm
    simp [initState, mapLookup] at hm
  · intro v1 v2 r hv1 hv2 hm1 hm2
    simp [initState, mapLookup] at hm1
  · intro v hv
    exact hv.elim

theorem killedVids_append (l1 l2 : List IR) :
    killedVids (l1 ++ l2) = killedVids l1 ++ killedVids l2 := by
  simp [killedVids]

/-- C2: non-aliasing and slot reuse. In a pass over IR whose kills are
pairwise distinct (the stated contract on IR generation), at any point
of the pass two virtual registers that are both bound and neither yet
killed never share a physical index; and in a concrete run, after the
kill of virtual 0 frees physical 0, the later virtual 1 is bound to
that same physical 0. -/
theorem reg_alloc_non_aliasing (RC : Nat) (l1 l2 out : List IR)
    (s : AllocState) (hnd : (killedVids (l1 ++ l2)).Nodup)
    (h : reg_alloc_go (initState RC) l1 = .ok (out, s)) :
    (∀ v1 v2 r, v1 ∉ killedVids l1 → v2 ∉ killedVids l1 →
        mapLookup s.reg_map v1 = some r →
        mapLookup s.reg_map v2 = some r → v1 = v2) ∧
    (∃ out2 s2, reg_alloc_go (initState 1) reuseIR = .ok (out2, s2) ∧
        mapLookup s2.reg_map 0 = some 0 ∧ mapLookup s2.reg_map 1 = some 0) := by
  constructor
  · have hnd1 : (killedVids l1).Nodup := by
      rw [killedVids_append] at hnd
      exact hnd.of_append_left
    have hres := go_inv l1 (fun _ => False) (initState RC) out s
      (initState_inv RC) h (by simp) hnd1
    intro v1 v2 r h1 h2 hm1 hm2
    exact hres.2.2.1 v1 v2 r (by simp [h1]) (by simp [h2]) hm1 hm2
  · exact ⟨_, _, rfl, rfl, rfl⟩

/-- Witness for C2 at the concrete reuse run with one physical
register. -/
theorem reg_alloc_non_aliasing_witness :
    (∀ v1 v2 r, v1 ∉ killedVids reuseIR → v2 ∉ killedVids reuseIR →
        mapLookup (AllocState.mk [true] [(1, 0), (0, 0)]).reg_map v1 = some r →
        mapLookup (AllocState.mk [true] [(1, 0), (0, 0)]).reg_map v2 = some r →
        v1 = v2) ∧
    (∃ out2 s2, reg_alloc_go (initState 1) reuseIR = .ok (out2, s2) ∧
        mapLookup s2.reg_map 0 = some 0 ∧ mapLookup s2.reg_map 1 = some 0) :=
  reg_alloc_non_aliasing 1 reuseIR []
    [IR.mk .Imm (some 0) (some 7), IR.mk .Kill (some 0) none,
     IR.mk .Imm (some 0) (some 8)]
    (AllocState.mk [true] [(1, 0), (0, 0)]) (by decide) rfl

/-- C3: register exhaustion is fatal. For a state whose bindings are in
range: when `v` is unmapped and every slot is in use, `alloc` reaches
the fatal outcome carrying the current map as diagnostic dump; in every
other case `alloc` succeeds with an index below the register count; and
a fatal step aborts the whole pass (no rewritten vector is returned). -/
theorem alloc_exhaustion_fatal (v : Nat) (s : AllocState)
    (hb : ∀ w r, mapLookup s.reg_map w = some r → r < s.is_reg_used.length) :
    (mapLookup s.reg_map v = none → (∀ b ∈ s.is_reg_used, b = true) →
        alloc (some v) s = .error (.noAvailableRegister s.reg_map v)) ∧
    (∀ r s1, alloc (some v) s = .ok (r, s1) → r < s.is_reg_used.length) ∧
    (mapLookup s.reg_map v = none → ¬ (∀ b ∈ s.is_reg_used, b = true) →
        ∃ r s1, alloc (some v) s = .ok (r, s1)) ∧
    (∀ r0, mapLookup s.reg_map v = some r0 → alloc (some v) s = .ok (r0, s)) ∧
    (∀ (s0 : AllocState) (i : IR) (rest : List IR) (e : RegAllocFatal),
        reg_alloc_step s0 i = .error e → reg_alloc_go s0 (i :: rest) = .error e) ∧
    (∀ (RC : Nat) (irs : List IR) (e : RegAllocFatal),
        reg_alloc_go (initState RC) irs = .error e →
        reg_alloc RC irs = .error e) := by
  refine ⟨?_, ?_, ?_, ?_, ?_, ?_⟩
  · intro hm hall
    simp [alloc, hm, (firstFree_eq_none s.is_reg_used).mpr hall]
  · intro r s1 h
    simp only [alloc] at h
    cases hm : mapLookup s.reg_map v with
    | some r0 =>
      simp only [hm] at h
      simp at h
      obtain ⟨rfl, rfl⟩ := h
      exact hb v _ hm
    | none =>
      simp only [hm] at h
      cases hf : firstFree s.is_reg_used with
      | none => simp only [hf] at h; cases h
      | some i =>
        simp only [hf] at h
        simp at h
        obtain ⟨rfl, rfl⟩ := h
        exact firstFree_lt_length s.is_reg_used _ hf
  · intro hm hnall
    cases hf : firstFree s.is_reg_used with
    | none => exact absurd ((firstFree_eq_none s.is_reg_used).mp hf) hnall
    | some i =>
      exact ⟨i, AllocState.mk (s.is_reg_used.set i true) ((v, i) :: s.reg_map),
        by simp [alloc, hm, hf]⟩
  · intro r0 hm
    exact alloc_of_mapped v r0 s hm
  · intro s0 i rest e hstep
    simp [reg_alloc_go, hstep]
  · intro RC irs e hgo
    simp [reg_alloc, hgo]

/-- Witness for C3 at a concrete exhausted state: one slot, in use,
with an empty map; resolving the unseen virtual 0 is fatal and dumps
the (empty) mapping. -/
theorem alloc_exhaustion_fatal_witness :
    (mapLookup exhaustState.reg_map 0 = none →
        (∀ b ∈ exhaustState.is_reg_used, b = true) →
        alloc (some 0) exhaustState =
          .error (.noAvailableRegister exhaustState.reg_map 0)) ∧
    (∀ r s1, alloc (some 0) exhaustState = .ok (r, s1) →
        r < exhaustState.is_reg_used.length) ∧
    (mapLookup exhaustState.reg_map 0 = none →
        ¬ (∀ b ∈ exhaustState.is_reg_used, b = true) →
        ∃ r s1, alloc (some 0) exhaustState = .ok (r, s1)) ∧
    (∀ r0, mapLookup exhaustState.reg_map 0 = some r0 →
        alloc (some 0) exhaustState = .ok (r0, exhaustState)) ∧
    (∀ (s0 : AllocState) (i : IR) (rest : List IR) (e : RegAllocFatal),
        reg_alloc_step s0 i = .error e → reg_alloc_go s0 (i :: rest) = .error e) ∧
    (∀ (RC : Nat) (irs : List IR) (e : RegAllocFatal),
        reg_alloc_go (initState RC) irs = .error e →
        reg_alloc RC irs = .error e) :=
  alloc_exhaustion_fatal 0 exhaustState
    (by intro w r hm; simp [exhaustState, mapLookup] at hm)

/-! ### Location and error invariants of the parser -/

theorem goodRes_none : GoodRes none := by
  constructor
  · intro a ts h
    cases h
  · intro e h
    cases h

theorem goodRes_ok (a : Ast) (ts : List Token) (h : LocOk a) :
    GoodRes (some (.ok (a, ts))) := by
  constructor
  · intro a2 ts2 hh
    simp at hh
    obtain ⟨rfl, rfl⟩ := hh
    exact h
  · intro e hh
    simp at hh

theorem goodRes_err (e : ParseError) (h1 : e ≠ .NoSemicolon)
    (h2 : ∀ t, e ≠ .NotOperator t) : GoodRes (some (.error e)) := by
  constructor
  · intro a ts hh
    simp at hh
  · intro e2 hh
    simp at hh
    subst hh
    exact ⟨h1, h2⟩

theorem goodRes_pbind (x : Option (Except ParseError (Ast × List Token)))
    (f : Ast → List Token → Option (Except ParseError (Ast × List Token)))
    (hx : GoodRes x)
    (hf : ∀ a ts, x = some (.ok (a, ts)) → LocOk a → GoodRes (f a ts)) :
    GoodRes (pbind x f) := by
  cases x with
  | none => exact goodRes_none
  | some r =>
    cases r with
    | error e => exact goodRes_err e (hx.2 e rfl).1 (hx.2 e rfl).2
    | ok p =>
      obtain ⟨a, ts⟩ := p
      exact hf a ts rfl (hx.1 a ts rfl)

theorem expect_token_err (kind : TokenKind) (ts : List Token) (e : ParseError)
    (h : expect_token kind ts = .error e) :
    e ≠ .NoSemicolon ∧ ∀ t, e ≠ .NotOperator t := by
  cases ts with
  | nil =>
    simp [expect_token] at h
    subst h
    simp
  | cons t rest =>
    simp only [expect_token] at h
    by_cases hv : t.value = kind
    · simp [hv] at h
    · simp [hv] at h
      subst h
      simp

theorem exprInv (fuel : Nat) :
    (∀ ts, GoodRes (parse_add fuel ts)) ∧
    (∀ lhs ts, LocOk lhs → GoodRes (parse_add_loop fuel lhs ts)) ∧
    (∀ ts, GoodRes (parse_mul fuel ts)) ∧
    (∀ lhs ts, LocOk lhs → GoodRes (parse_mul_loop fuel lhs ts)) ∧
    (∀ ts, GoodRes (parse_unary fuel ts)) ∧
    (∀ ts, GoodRes (parse_primary fuel ts)) := by
  induction fuel with
  | zero =>
    exact ⟨fun ts => goodRes_none, fun lhs ts h => goodRes_none,
      fun ts => goodRes_none, fun lhs ts h => goodRes_none,
      fun ts => goodRes_none, fun ts => goodRes_none⟩
  | succ f ih =>
    obtain ⟨ihadd, ihaddl, ihmul, ihmull, ihun, ihprim⟩ := ih
    refine ⟨?_, ?_, ?_, ?_, ?_, ?_⟩
    · intro ts
      simp only [parse_add]
      refine goodRes_pbind _ _ (ihmul ts) ?_
      intro a ts1 _ ha
      exact ihaddl a ts1 ha
    · intro lhs ts hlhs
      simp only [parse_add_loop]
      split <;>
      first
      | (refine goodRes_pbind _ _ (ihmul _) ?_
         intro rhs ts1 _ hrhs
         exact ihaddl _ ts1 (LocOk.binop .Add lhs rhs hlhs hrhs))
      | (refine goodRes_pbind _ _ (ihmul _) ?_
         intro rhs ts1 _ hrhs
         exact ihaddl _ ts1 (LocOk.binop .Sub lhs rhs hlhs hrhs))
      | exact goodRes_ok _ _ hlhs
    · intro ts
      simp only [parse_mul]
      refine goodRes_pbind _ _ (ihun ts) ?_
      intro a ts1 _ ha
      exact ihmull a ts1 ha
    · intro lhs ts hlhs
      simp only [parse_mul_loop]
      split <;>
      first
      | (refine goodRes_pbind _ _ (ihun _) ?_
         intro rhs ts1 _ hrhs
         exact ihmull _ ts1 (LocOk.binop .Mul lhs rhs hlhs hrhs))
      | (refine goodRes_pbind _ _ (ihun _) ?_
         intro rhs ts1 _ hrhs
         exact ihmull _ ts1 (LocOk.binop .Div lhs rhs hlhs hrhs))
      | exact goodRes_ok _ _ hlhs
    · intro ts
      simp only [parse_unary]
      split <;>
      first
      | (refine goodRes_pbind _ _ (ihprim _) ?_
         intro node ts1 _ hnode
         exact goodRes_ok _ _ (LocOk.uniop .Plus node hnode))
      | (refine goodRes_pbind _ _ (ihprim _) ?_
         intro node ts1 _ hnode
         exact goodRes_ok _ _ (LocOk.uniop .Minus node hnode))
      | exact ihprim ts
    · intro ts
      simp only [parse_primary]
      split
      · exact goodRes_err .Eof (by simp) (by simp)
      · split <;>
        first
        | exact goodRes_ok _ _ (LocOk.num _ _)
        | exact goodRes_ok _ _ (LocOk.var _ _)
        | exact goodRes_err _ (by simp) (by simp)
        | (refine goodRes_pbind _ _ (ihadd _) ?_
           intro node ts1 _ hnode
           split
           · exact goodRes_ok _ _ hnode
           · exact goodRes_err _ (by simp) (by simp)
           · exact goodRes_err _ (by simp) (by simp))

theorem assignInv (fuel : Nat) : ∀ ts, GoodRes (parse_assign fuel ts) := by
  induction fuel with
  | zero => intro ts; exact goodRes_none
  | succ f ih =>
    intro ts
    simp only [parse_assign]
    refine goodRes_pbind _ _ ((exprInv f).1 ts) ?_
    intro lhs ts1 _ hlhs
    split
    · refine goodRes_pbind _ _ (ih _) ?_
      intro rhs ts2 _ hrhs
      exact goodRes_ok _ _ (LocOk.assign lhs rhs hlhs hrhs)
    · exact goodRes_ok _ _ hlhs

theorem declInv (fuel : Nat) : ∀ ts, GoodRes (parse_decl_var fuel ts) := by
  cases fuel with
  | zero => intro ts; exact goodRes_none
  | succ f =>
    intro ts
    simp only [parse_decl_var]
    split
    · exact goodRes_err .Eof (by simp) (by simp)
    · split <;>
      first
      | exact goodRes_err _ (by simp) (by simp)
      | (split
         · rename_i e heq
           obtain ⟨h1, h2⟩ := expect_token_err _ _ _ heq
           exact goodRes_err e h1 h2
         · refine goodRes_pbind _ _ ((exprInv f).1 _) ?_
           intro rhs rest3 _ hrhs
           split
           · rename_i e heq
             obtain ⟨h1, h2⟩ := expect_token_err _ _ _ heq
             exact goodRes_err e h1 h2
           · exact goodRes_ok _ _ (LocOk.decl _ rhs (LocOk.var _ _) hrhs))

theorem stmtInv (fuel : Nat) :
    (∀ ts, GoodRes (parse_stmt fuel ts)) ∧
    (∀ loc stmts ts, (∀ a ∈ stmts, LocOk a) → loc = compLocFold stmts →
      GoodRes (parse_comp_loop fuel loc stmts ts)) := by
  induction fuel with
  | zero =>
    exact ⟨fun ts => goodRes_none, fun loc stmts ts h1 h2 => goodRes_none⟩
  | succ f ih =>
    obtain ⟨ihstmt, ihcomp⟩ := ih
    constructor
    · intro ts
      simp only [parse_stmt]
      split <;>
      first
      | exact declInv f _
      | (split
         · rename_i e heq
           obtain ⟨h1, h2⟩ := expect_token_err _ _ _ heq
           exact goodRes_err e h1 h2
         · refine goodRes_pbind _ _ (assignInv f _) ?_
           intro cond r2 _ hcond
           split
           · rename_i e heq
             obtain ⟨h1, h2⟩ := expect_token_err _ _ _ heq
             exact goodRes_err e h1 h2
           · refine goodRes_pbind _ _ (ihstmt _) ?_
             intro thenStmt r4 _ hthen
             exact goodRes_ok _ _ (LocOk.ifstmt cond thenStmt hcond hthen))
      | exact ihcomp (Loc.mk USIZE_MAX 0) [] _ (by simp) rfl
      | (refine goodRes_pbind _ _ (assignInv f _) ?_
         intro expr r1 _ hexpr
         split
         · rename_i e heq
           obtain ⟨h1, h2⟩ := expect_token_err _ _ _ heq
           exact goodRes_err e h1 h2
         · exact goodRes_ok _ _ (LocOk.ret expr hexpr))
      | (refine goodRes_pbind _ _ (assignInv f _) ?_
         intro ast r1 _ hast
         split
         · rename_i e heq
           obtain ⟨h1, h2⟩ := expect_token_err _ _ _ heq
           exact goodRes_err e h1 h2
         · exact goodRes_ok _ _ hast)
    · intro loc stmts ts hstmts hloc
      simp only [parse_comp_loop]
      split <;>
      first
      | (subst hloc
         exact goodRes_ok _ _ (LocOk.compstmt stmts hstmts))
      | (refine goodRes_pbind _ _ (ihstmt _) ?_
         intro stmt ts1 _ hstmt
         refine ihcomp _ _ _ ?_ ?_
         · intro a ha
           rcases List.mem_append.mp ha with h | h
           · exact hstmts a h
           · simp at h
             subst h
             exact hstmt
         · rw [hloc]
           simp [compLocFold, List.foldl_append])

theorem parseInv (fuel : Nat) : ∀ ts, GoodResL (parse fuel ts) := by
  induction fuel with
  | zero =>
    intro ts
    refine ⟨?_, ?_⟩
    · intro asts ts2 h
      simp [parse] at h
    · intro e h
      simp [parse] at h
  | succ f ih =>
    intro ts
    simp only [parse]
    cases hstmt : parse_stmt f ts with
    | none =>
      refine ⟨?_, ?_⟩
      · intro asts ts2 h
        simp at h
      · intro e h
        simp at h
    | some r =>
      cases r with
      | error e =>
        refine ⟨?_, ?_⟩
        · intro asts ts2 h
          simp at h
        · intro e2 h
          simp at h
          subst h
          exact ((stmtInv f).1 ts).2 e hstmt
      | ok p =>
        obtain ⟨ast, ts1⟩ := p
        have hast := ((stmtInv f).1 ts).1 ast ts1 hstmt
        cases ts1 with
        | nil =>
          refine ⟨?_, ?_⟩
          · intro asts ts2 h
            simp at h
            obtain ⟨rfl, rfl⟩ := h
            intro a ha
            simp at ha
            subst ha
            exact hast
          · intro e2 h
            simp at h
        | cons t rest =>
          cases hp : parse f (t :: rest) with
          | none =>
            refine ⟨?_, ?_⟩
            · intro asts ts2 h
              simp [hp] at h
            · intro e2 h
              simp [hp] at h
          | some r2 =>
            cases r2 with
            | error e =>
              refine ⟨?_, ?_⟩
              · intro asts ts2 h
                simp [hp] at h
              · intro e2 h
                simp [hp] at h
                subst h
                exact (ih (t :: rest)).2 e hp
            | ok q =>
              obtain ⟨asts, ts2⟩ := q
              refine ⟨?_, ?_⟩
              · intro asts2 ts3 h
                simp [hp] at h
                obtain ⟨rfl, rfl⟩ := h
                intro a ha
                rcases List.mem_cons.mp ha with rfl | ha2
                · exact hast
                · exact (ih (t :: rest)).1 asts ts2 hp a ha2
              · intro e2 h
                simp [hp] at h

/-! ### Parser claim theorems -/

/-- C4 (amended): on every successful parse, each returned AST node
satisfies `LocOk`: leaf nodes carry their token's location and every
internal node's location is the merge of its sub-nodes' locations
only. Operator, sign, keyword, parenthesis and semicolon tokens are
not merged in (the sign of a unary node and the parentheses of a
parenthesized expression are excluded, contrary to the original
claim), and an empty compound statement keeps the sentinel of the
fold. -/
theorem parse_loc_merge (fuel : Nat) (ts rest : List Token) (asts : List Ast)
    (h : parse fuel ts = some (.ok (asts, rest))) : ∀ a ∈ asts, LocOk a :=
  (parseInv fuel ts).1 asts rest h

theorem parse_loc_merge_witness :
    LocOk (Annotated.mk (AstKind.Num 1) (Loc.mk 0 1)) :=
  parse_loc_merge 10
    [Token.mk (.Number 1) (Loc.mk 0 1), Token.mk .Semicolon (Loc.mk 1 2)] []
    [Annotated.mk (AstKind.Num 1) (Loc.mk 0 1)] rfl
    (Annotated.mk (AstKind.Num 1) (Loc.mk 0 1)) (List.mem_singleton.mpr rfl)

/-- C4 counterexample: parsing the tokens of the statement built from
a unary minus applied to 10 yields a unary node whose location is only
the operand's span, excluding the sign token, so it differs from the
merge of the sign token's location with the operand's. -/
theorem parse_unary_loc_counterexample :
    parse 10 [Token.mk .Minus (Loc.mk 0 1), Token.mk (.Number 10) (Loc.mk 1 3),
        Token.mk .Semicolon (Loc.mk 3 4)] =
      some (.ok ([Ast.uniop .Minus (Ast.num 10 (Loc.mk 1 3)) (Loc.mk 1 3)], [])) ∧
    (Ast.uniop .Minus (Ast.num 10 (Loc.mk 1 3)) (Loc.mk 1 3)).loc ≠
      (Loc.mk 0 1).merge (Ast.num 10 (Loc.mk 1 3)).loc := by
  refine ⟨rfl, ?_⟩
  decide

/-- C5: precedence and associativity. Parsing the token stream of the
source text with a parenthesized sum multiplied by 31 minus a unary
minus 10 yields exactly the tree Sub(Mul(Add(5,2),31), UnaryMinus(10))
with the spans of the repository's own regression test; and one step
of `parse_add_loop` and of `parse_mul_loop` folds the next operator
into a left-associated binary node used as the new accumulator. -/
theorem parse_precedence (f : Nat) :
    parse 50 toksCalc =
      some (.ok ([Ast.binop .Sub
        (Ast.binop .Mul
          (Ast.binop .Add (Ast.num 5 (Loc.mk 1 2)) (Ast.num 2 (Loc.mk 5 6))
            (Loc.mk 1 6))
          (Ast.num 31 (Loc.mk 10 12)) (Loc.mk 1 12))
        (Ast.uniop .Minus (Ast.num 10 (Loc.mk 16 18)) (Loc.mk 16 18))
        (Loc.mk 1 18)], [])) ∧
    (∀ lhs rhs l ts ts1, parse_mul f ts = some (.ok (rhs, ts1)) →
      parse_add_loop (f + 1) lhs (Token.mk .Plus l :: ts) =
        parse_add_loop f (Ast.binop .Add lhs rhs (lhs.loc.merge rhs.loc)) ts1) ∧
    (∀ lhs rhs l ts ts1, parse_unary f ts = some (.ok (rhs, ts1)) →
      parse_mul_loop (f + 1) lhs (Token.mk .Asterisk l :: ts) =
        parse_mul_loop f (Ast.binop .Mul lhs rhs (lhs.loc.merge rhs.loc)) ts1) := by
  refine ⟨rfl, ?_, ?_⟩
  · intro lhs rhs l ts ts1 h
    simp [parse_add_loop, pbind, h]
  · intro lhs rhs l ts ts1 h
    simp [parse_mul_loop, pbind, h]

theorem parse_precedence_witness :
    parse_add_loop 6 (Ast.num 1 (Loc.mk 0 1))
        [Token.mk .Plus (Loc.mk 1 2), Token.mk (.Number 2) (Loc.mk 2 3)] =
      parse_add_loop 5 (Ast.binop .Add (Ast.num 1 (Loc.mk 0 1))
        (Ast.num 2 (Loc.mk 2 3))
        ((Ast.num 1 (Loc.mk 0 1)).loc.merge (Ast.num 2 (Loc.mk 2 3)).loc)) [] :=
  (parse_precedence 5).2.1 (Ast.num 1 (Loc.mk 0 1)) (Ast.num 2 (Loc.mk 2 3))
    (Loc.mk 1 2) [Token.mk (.Number 2) (Loc.mk 2 3)] [] rfl

/-- C6: chained assignment is right-associative: `parse_assign` parses
one `Add`, and on a following assignment token recurses into
`parse_assign` for the right-hand side, producing
Assignment(lhs, rhs-of-recursive-call). -/
theorem parse_assign_right_recursive (f : Nat) (ts ts1 ts2 : List Token)
    (lhs rhs : Ast) (l : Loc)
    (h1 : parse_add f ts = some (.ok (lhs, Token.mk .Assignment l :: ts1)))
    (h2 : parse_assign f ts1 = some (.ok (rhs, ts2))) :
    parse_assign (f + 1) ts =
      some (.ok (Ast.assignment lhs rhs (lhs.loc.merge rhs.loc), ts2)) := by
  simp [parse_assign, pbind, h1, h2]

theorem parse_assign_right_recursive_witness :
    parse_assign 9 toksAssignChain =
      some (.ok (Ast.assignment (Annotated.mk (AstKind.Variable "a") (Loc.mk 0 1))
        (Ast.assignment (Annotated.mk (AstKind.Variable "b") (Loc.mk 4 5))
          (Annotated.mk (AstKind.Variable "c") (Loc.mk 8 9)) (Loc.mk 4 9))
        ((Annotated.mk (AstKind.Variable "a") (Loc.mk 0 1)).loc.merge
          (Ast.assignment (Annotated.mk (AstKind.Variable "b") (Loc.mk 4 5))
            (Annotated.mk (AstKind.Variable "c") (Loc.mk 8 9)) (Loc.mk 4 9)).loc),
        [])) :=
  parse_assign_right_recursive 8 toksAssignChain
    [Token.mk (.Identifier "b") (Loc.mk 4 5), Token.mk .Assignment (Loc.mk 6 7),
     Token.mk (.Identifier "c") (Loc.mk 8 9)] []
    (Annotated.mk (AstKind.Variable "a") (Loc.mk 0 1))
    (Ast.assignment (Annotated.mk (AstKind.Variable "b") (Loc.mk 4 5))
      (Annotated.mk (AstKind.Variable "c") (Loc.mk 8 9)) (Loc.mk 4 9))
    (Loc.mk 2 3) rfl rfl

/-- C7: unclosed parenthesis error anchoring. Whenever the token
stream after an opening parenthesis is fully consumed by the inner
expression (no token left before the closing parenthesis is seen),
`parse_primary` fails with the unclosed-open-paren error carrying the
opening token itself; concretely the tokens of an unterminated
parenthesized sum fail with the error anchored at the opening token's
location. -/
theorem parse_unclosed_paren (f : Nat) (l : Loc) (ts : List Token)
    (node : Ast) (h : parse_add f ts = some (.ok (node, []))) :
    parse_primary (f + 1) (Token.mk .LParen l :: ts) =
      some (.error (.UnclosedOpenParen (Token.mk .LParen l))) ∧
    parse 20 toksUnclosed =
      some (.error (.UnclosedOpenParen (Token.mk .LParen (Loc.mk 0 1)))) := by
  constructor
  · simp [parse_primary, pbind, h]
  · rfl

theorem parse_unclosed_paren_witness :
    parse_primary 6
        [Token.mk .LParen (Loc.mk 0 1), Token.mk (.Number 1) (Loc.mk 1 2)] =
      some (.error (.UnclosedOpenParen (Token.mk .LParen (Loc.mk 0 1)))) ∧
    parse 20 toksUnclosed =
      some (.error (.UnclosedOpenParen (Token.mk .LParen (Loc.mk 0 1)))) :=
  parse_unclosed_paren 5 (Loc.mk 0 1) [Token.mk (.Number 1) (Loc.mk 1 2)]
    (Ast.num 1 (Loc.mk 1 2)) rfl

/-- C8 (amended): parsing an empty token sequence fails with the
end-of-input error for every sufficient fuel; the parser's loop
requires at least one statement, so a program is one-or-more
statements rather than zero-or-more. -/
theorem parse_empty_eof (f : Nat) : parse (f + 7) [] = some (.error .Eof) := rfl

/-- C8 counterexample: parsing the empty token sequence returns the
end-of-input error, not the empty statement list. -/
theorem parse_empty_counterexample :
    parse 7 [] = some (.error .Eof) ∧ parse 7 [] ≠ some (.ok ([], [])) := by
  refine ⟨rfl, ?_⟩
  intro h
  rw [show parse 7 ([] : List Token) = some (.error .Eof) from rfl] at h
  simp at h

/-- C9: the parser never returns the `NoSemicolon` or `NotOperator`
error variants on any input; concretely, a missing semicolon is
reported as end-of-input when the tokens run out, and as
unexpected-token carrying the offending token otherwise. -/
theorem parse_no_dead_errors (f : Nat) (ts : List Token) :
    (∀ e, parse f ts = some (.error e) →
        e ≠ .NoSemicolon ∧ ∀ t, e ≠ .NotOperator t) ∧
    parse 10 [Token.mk (.Number 1) (Loc.mk 0 1)] = some (.error .Eof) ∧
    parse 10 [Token.mk (.Number 1) (Loc.mk 0 1), Token.mk .RParen (Loc.mk 1 2)] =
      some (.error (.UnexpectedToken (Token.mk .RParen (Loc.mk 1 2)))) :=
  ⟨(parseInv f ts).2, rfl, rfl⟩

theorem parse_no_dead_errors_witness :
    ParseError.Eof ≠ .NoSemicolon ∧ ∀ t, ParseError.Eof ≠ .NotOperator t :=
  (parse_no_dead_errors 7 []).1 .Eof rfl

/-- C10: parsing a compound statement with zero inner statements
produces a `CompStmt` node carrying the sentinel location with start
`usize::MAX` and end 0 (the initial accumulator merged with nothing),
which is not the span of the two brace tokens. -/
theorem parse_empty_block_sentinel :
    parse 10 [Token.mk .LBrace (Loc.mk 0 1), Token.mk .RBrace (Loc.mk 1 2)] =
      some (.ok ([Annotated.mk (AstKind.CompStmt []) (Loc.mk USIZE_MAX 0)], [])) ∧
    USIZE_MAX = 2 ^ 64 - 1 ∧
    Loc.mk USIZE_MAX 0 ≠ Loc.mk 0 2 := by
  refine ⟨rfl, rfl, ?_⟩
  intro h
  injection h with h1 h2
  exact absurd h2 (by decide)
